import Mathlib

/-!
Verification of the wwsync-vscode rsync core (src/rsync.ts, src/sessionState.ts).

The TypeScript source is shallowly embedded: JavaScript string primitives
(split, trim, startsWith, replace-first-occurrence) are modelled as executable
functions on `String` viewed as its list of characters, the child-process event
loop is modelled as a list of events consumed in order, and the promise
settlement discipline (first resolve/reject wins) is the first settling event.
-/

namespace WWSync

/-- JavaScript `s.split(sep)` on a single separator character, at the level of
character lists: every occurrence of the separator starts a new field, and the
empty string splits to one empty field. -/
def splitCharList (sep : Char) : List Char → List (List Char)
  | [] => [[]]
  | c :: rest =>
    let r := splitCharList sep rest
    if c = sep then [] :: r
    else
      match r with
      | [] => [[c]]
      | h :: t => (c :: h) :: t

/-- JavaScript `output.split('\n')` as used by `parseDeletedFiles`. -/
def jsSplitNewline (s : String) : List String :=
  (splitCharList '\n' s.toList).map String.mk

/-- JavaScript `line.trim()`: strip leading and trailing whitespace. -/
def jsTrim (s : String) : String :=
  String.mk (((s.toList.dropWhile Char.isWhitespace).reverse.dropWhile Char.isWhitespace).reverse)

/-- JavaScript `s.startsWith(pre)`. -/
def startsWithJS (s pre : String) : Bool :=
  List.isPrefixOf pre.toList s.toList

/-- JavaScript `s.endsWith(suf)`. -/
def endsWithJS (s suf : String) : Bool :=
  List.isSuffixOf suf.toList s.toList

/-- JavaScript `s.replace(pat, rep)` with a string pattern: replace the first
occurrence of `pat` only, scanning left to right; if `pat` does not occur the
string is unchanged. -/
def replFirst (pat rep : List Char) : List Char → List Char
  | [] => if pat.isEmpty then rep else []
  | c :: rest =>
    if List.isPrefixOf pat (c :: rest) then rep ++ List.drop pat.length (c :: rest)
    else c :: replFirst pat rep rest

/-- JavaScript `s.replace(pat, rep)` (first occurrence only) on strings. -/
def jsReplaceFirst (s pat rep : String) : String :=
  String.mk (replFirst pat.toList rep.toList s.toList)

/-- The loop body of `parseDeletedFiles` in src/rsync.ts: walk the lines,
collecting `trimmed.replace('deleting ', '')` for each line whose trimmed form
starts with `deleting `. -/
def collectDeleted : List String → List String
  | [] => []
  | line :: rest =>
    let trimmed := jsTrim line
    if startsWithJS trimmed "deleting " then
      jsReplaceFirst trimmed "deleting " "" :: collectDeleted rest
    else collectDeleted rest

/-- `parseDeletedFiles` from src/rsync.ts: split the dry-run output on
newlines and collect the paths of the `deleting ` records. -/
def parseDeletedFiles (output : String) : List String :=
  collectDeleted (jsSplitNewline output)

/-- `path.sep` of Node, modelled for a POSIX host. -/
def pathSep : String := "/"

/-- `Mapping` from src/config.ts: one local-to-remote directory mapping. -/
structure Mapping where
  «local» : String
  remote : String
  excludes : List String
deriving DecidableEq

/-- `ensureTrailingSlash` from src/rsync.ts. -/
def ensureTrailingSlash (p : String) : String :=
  if endsWithJS p pathSep || endsWithJS p "/" then p else p ++ "/"

/-- `buildRsyncArgs` from src/rsync.ts: the flag `-avzP`, one pair
`--exclude`, pattern per exclusion, then `--delete` when requested. -/
def excludeArgs : List String → List String
  | [] => []
  | e :: rest => "--exclude" :: e :: excludeArgs rest

def buildRsyncArgs (excludes : List String) (withDelete : Bool) : List String :=
  ("-avzP" :: excludeArgs excludes) ++ (if withDelete then ["--delete"] else [])

/-- The argument vector spawned by `runSafeSync`:
`buildRsyncArgs(mapping.excludes, false)` followed by the source (local root
with a trailing slash ensured) and the destination `host:remote`. -/
def safeSyncArgs (host : String) (m : Mapping) : List String :=
  buildRsyncArgs m.excludes false ++ [ensureTrailingSlash m.«local», host ++ ":" ++ m.remote]

/-- The dry-run argument vector of `runFullSync`:
`buildRsyncArgs(mapping.excludes, true)` with `--dry-run`, source, destination
pushed on the end. -/
def fullSyncDryRunArgs (host : String) (m : Mapping) : List String :=
  buildRsyncArgs m.excludes true ++ ["--dry-run", ensureTrailingSlash m.«local», host ++ ":" ++ m.remote]

/-- The real (mutating) argument vector of `runFullSync`:
`buildRsyncArgs(mapping.excludes, true)` with source and destination pushed. -/
def fullSyncRealArgs (host : String) (m : Mapping) : List String :=
  buildRsyncArgs m.excludes true ++ [ensureTrailingSlash m.«local», host ++ ":" ++ m.remote]

/-- Number of trailing `/` characters of a string. -/
def trailingSlashCount (s : String) : Nat :=
  (s.toList.reverse.takeWhile (fun c => c = '/')).length

/-- First-match lookup in an association list, JavaScript `Map.prototype.get`. -/
def lookupAssoc : List (String × String) → String → Option String
  | [], _ => none
  | (k, v) :: rest, key => if k = key then some v else lookupAssoc rest key

/-- JavaScript `Map.prototype.set`: overwrite the entry in place when the key
is present, append a new entry otherwise. -/
def updateAssoc : List (String × String) → String → String → List (String × String)
  | [], key, value => [(key, value)]
  | (k, v) :: rest, key, value =>
    if k = key then (key, value) :: rest else (k, v) :: updateAssoc rest key value

/-- `SessionState` from src/sessionState.ts; the private field `_serverChoice`
is the per-folder server-choice map, `passwords` the per-prompt password map. -/
structure SessionState where
  serverChoice : List (String × String)
  passwords : List (String × String)
deriving DecidableEq

/-- `SessionState.get`. -/
def SessionState.get (s : SessionState) (key : String) : Option String :=
  lookupAssoc s.serverChoice key

/-- `SessionState.set`: store the value and fire `_onDidChange` only when the
currently stored value differs; the returned boolean records whether the event
fired. -/
def SessionState.set (s : SessionState) (key value : String) : SessionState × Bool :=
  let current := s.get key
  if current ≠ some value then
    ({ s with serverChoice := updateAssoc s.serverChoice key value }, true)
  else (s, false)

/-- One event observed on a spawned child process, in order of arrival:
the cancellation token firing, a stdout chunk, a stderr chunk, the `close`
event carrying the exit code (`none` models JavaScript `null`, a process
terminated by a signal), or the `error` event of a failed spawn. -/
inductive PEvent where
  | cancel : PEvent
  | out : String → PEvent
  | err : String → PEvent
  | close : Option Int → PEvent
  | spawnErr : String → PEvent
deriving DecidableEq

/-- Settlement of the promise of `runRsyncCommandWithOutput`: resolved with
the captured stdout, or rejected with an error message. -/
inductive PromiseResult where
  | resolved : String → PromiseResult
  | rejected : String → PromiseResult
deriving DecidableEq

/-- Settlement of the `Promise<void>` of `runRsyncCommand`. -/
inductive VoidResult where
  | resolved : VoidResult
  | rejected : String → VoidResult
deriving DecidableEq

/-- JavaScript template interpolation of an exit code of type
`number | null`. -/
def codeStr : Option Int → String
  | some n => toString n
  | none => "null"

/-- `runRsyncCommandWithOutput` from src/rsync.ts, as a function of the event
sequence of its child process. `so` and `se` are the stdout and stderr
accumulators (both start empty). A promise settles at most once, so the first
settling event wins: cancellation rejects with `Operation cancelled`
immediately; `close` resolves the captured stdout on exit code 0 and otherwise
rejects with the accumulated stderr, or with
`rsync exited with code N` when stderr is empty; a spawn error rejects with
its message. `none` means the promise never settles. -/
def processWithOutput : String → String → List PEvent → Option PromiseResult
  | _, _, [] => none
  | so, se, e :: rest =>
    match e with
    | .cancel => some (.rejected "Operation cancelled")
    | .out s => processWithOutput (so ++ s) se rest
    | .err s => processWithOutput so (se ++ s) rest
    | .close code =>
      if code = some 0 then some (.resolved so)
      else some (.rejected (if se ≠ "" then se else "rsync exited with code " ++ codeStr code))
    | .spawnErr m => some (.rejected m)

/-- `runRsyncCommand` from src/rsync.ts (the live streaming runner), as a
function of the event sequence. Its cancellation handler logs and kills the
process but neither resolves nor rejects; stdout and stderr are streamed to
the output channel, not accumulated; `close` resolves on exit code 0 and
otherwise rejects with `<operationName> failed with code N`; a spawn error
rejects with its message. -/
def processStreaming (opName : String) : List PEvent → Option VoidResult
  | [] => none
  | e :: rest =>
    match e with
    | .cancel => processStreaming opName rest
    | .out _ => processStreaming opName rest
    | .err _ => processStreaming opName rest
    | .close code =>
      if code = some 0 then some .resolved
      else some (.rejected (opName ++ " failed with code " ++ codeStr code))
    | .spawnErr m => some (.rejected m)

/-- How one invocation of `runFullSync` ends: an early `return` at one of the
two `token?.isCancellationRequested` checks; the user-declined path that logs
`Operation cancelled.` and returns; normal completion after the real run; or a
thrown error (the catch block logs and rethrows unchanged). -/
inductive SyncResult where
  | earlyReturn : SyncResult
  | cancelledByUser : SyncResult
  | completed : SyncResult
  | threw : String → SyncResult
deriving DecidableEq

/-- Observable record of one `runFullSync` invocation: how it ended
(`none` when it awaits a promise that never settles), whether the dry-run
process and the real process were spawned, and whether the confirmation
dialog (`showWarningMessage`) was shown. -/
structure SyncRun where
  result : Option SyncResult
  trialSpawned : Bool
  realSpawned : Bool
  confirmAsked : Bool
deriving DecidableEq

/-- The tail of `runFullSync` after the deletion gate: the second cancellation
check, then the real (mutating) run via `runRsyncCommand`. -/
def runFullSyncReal (cancelAfterGate : Bool) (realEvents : List PEvent) (asked : Bool) : SyncRun :=
  if cancelAfterGate then ⟨some .earlyReturn, true, false, asked⟩
  else
    match processStreaming "Full sync" realEvents with
    | none => ⟨none, true, true, asked⟩
    | some .resolved => ⟨some .completed, true, true, asked⟩
    | some (.rejected m) => ⟨some (.threw m), true, true, asked⟩

/-- `runFullSync` from src/rsync.ts. Inputs: the state of the cancellation
token at the first check, the event sequence of the dry-run process, what
`showWarningMessage` resolves to (`some` choice or `none` for dismissal), the
token state at the second check, and the event sequence of the real process.
The dry run is spawned unless the token is already cancelled; its rejection is
rethrown by the catch block unchanged; otherwise its stdout is parsed and a
non-empty deletion list raises the modal confirmation, where any answer other
than `Yes, delete` logs `Operation cancelled.` and returns. -/
def runFullSyncM (cancelAtStart : Bool) (trialEvents : List PEvent)
    (confirmAnswer : Option String) (cancelAfterGate : Bool)
    (realEvents : List PEvent) : SyncRun :=
  if cancelAtStart then ⟨some .earlyReturn, false, false, false⟩
  else
    match processWithOutput "" "" trialEvents with
    | none => ⟨none, true, false, false⟩
    | some (.rejected e) => ⟨some (.threw e), true, false, false⟩
    | some (.resolved stdout) =>
      let filesToDelete := parseDeletedFiles stdout
      if 0 < filesToDelete.length then
        if confirmAnswer ≠ some "Yes, delete" then ⟨some .cancelledByUser, true, false, true⟩
        else runFullSyncReal cancelAfterGate realEvents true
      else runFullSyncReal cancelAfterGate realEvents false

/-- The deletion record a single line contributes according to the spec: when
the whitespace-trimmed line starts with `deleting `, the remainder of the
trimmed line after that nine-character marker; nothing otherwise. Stated
separately from `parseDeletedFiles` so the loop of the source can be compared
against it. -/
def specDeletionOf (line : String) : Option String :=
  let t := jsTrim line
  if startsWithJS t "deleting " then some (String.mk (t.toList.drop "deleting ".length))
  else none

/-- Whether an event is a pure data (stdout or stderr) chunk. -/
def isData : PEvent → Bool
  | .out _ => true
  | .err _ => true
  | _ => false

/-- Concatenation of the stdout chunks of an event sequence. -/
def outsOf : List PEvent → String
  | [] => ""
  | .out s :: rest => s ++ outsOf rest
  | _ :: rest => outsOf rest

/-- Concatenation of the stderr chunks of an event sequence. -/
def errsOf : List PEvent → String
  | [] => ""
  | .err s :: rest => s ++ errsOf rest
  | _ :: rest => errsOf rest

/-! ## Helper lemmas -/

theorem replFirst_startsWith (t : String) (h : startsWithJS t "deleting " = true) :
    jsReplaceFirst t "deleting " "" = String.mk (t.toList.drop "deleting ".length) := by
  obtain ⟨data⟩ := t
  match data with
  | [] => exact absurd h (by decide)
  | c :: rest =>
    have h' : List.isPrefixOf "deleting ".toList (c :: rest) = true := h
    show String.mk (replFirst "deleting ".toList [] (c :: rest)) = _
    rw [replFirst, if_pos h']
    rfl

theorem collectDeleted_eq_filterMap (lines : List String) :
    collectDeleted lines = lines.filterMap specDeletionOf := by
  induction lines with
  | nil => rfl
  | cons line rest ih =>
    by_cases h : startsWithJS (jsTrim line) "deleting " = true
    · simp only [collectDeleted, specDeletionOf, List.filterMap_cons, h, if_true, ih,
        replFirst_startsWith (jsTrim line) h]
    · simp only [collectDeleted, specDeletionOf, List.filterMap_cons,
        Bool.not_eq_true] at h ⊢
      simp [h, ih]

/-! ## Claim theorems -/

/-- C2: for every input string, `parseDeletedFiles` returns exactly, in order
of appearance, for each line whose whitespace-trimmed form begins with the
literal prefix `deleting `, the remainder of that trimmed line after the
marker; every other line contributes nothing; and an input containing the line
`deleting a/b.txt` yields the single element `a/b.txt`. -/
theorem parseDeletedFiles_spec :
    (∀ output : String,
      parseDeletedFiles output = (jsSplitNewline output).filterMap specDeletionOf) ∧
    parseDeletedFiles "deleting a/b.txt" = ["a/b.txt"] :=
  ⟨fun _ => collectDeleted_eq_filterMap _, by decide⟩

/-- C8: `parseDeletedFiles` is a pure deterministic function: two runs on the
same input yield the same sequence; the order of returned paths matches their
order of appearance (it is the `filterMap` of the line sequence, which keeps
input order); duplicate deletion lines are preserved without deduplication;
and an input with zero `deleting ` lines yields the empty sequence. -/
theorem parseDeletedFiles_pure_props :
    (∀ output : String, parseDeletedFiles output = parseDeletedFiles output) ∧
    (∀ output : String,
      parseDeletedFiles output = (jsSplitNewline output).filterMap specDeletionOf) ∧
    parseDeletedFiles "deleting a.txt\nsome noise\ndeleting a.txt" = ["a.txt", "a.txt"] ∧
    (∀ output : String,
      (∀ l ∈ jsSplitNewline output, startsWithJS (jsTrim l) "deleting " = false) →
      parseDeletedFiles output = []) := by
  refine ⟨fun _ => rfl, fun _ => collectDeleted_eq_filterMap _, by decide, ?_⟩
  intro output h
  rw [parseDeletedFiles, collectDeleted_eq_filterMap, List.filterMap_eq_nil_iff]
  intro l hl
  simp [specDeletionOf, h l hl]

/-- C8 witness: the empty-result case at a concrete two-line transfer
summary with no `deleting ` records. -/
theorem parseDeletedFiles_pure_props_witness :
    parseDeletedFiles "sent 42 bytes\ntotal size is 0" = [] :=
  parseDeletedFiles_pure_props.2.2.2 "sent 42 bytes\ntotal size is 0" (by decide)

/-- C9: `parseDeletedFiles` removes only the leading occurrence of the marker
`deleting `: prefixing any path with the marker recovers exactly that path,
and the line `deleting deleting notes.txt` is returned as
`deleting notes.txt`, interior occurrence intact. -/
theorem parseDeletedFiles_first_occurrence_only :
    (∀ r : String, jsReplaceFirst ("deleting " ++ r) "deleting " "" = r) ∧
    parseDeletedFiles "deleting deleting notes.txt" = ["deleting notes.txt"] := by
  refine ⟨fun r => ?_, by decide⟩
  have hs : startsWithJS ("deleting " ++ r) "deleting " = true := by
    rw [startsWithJS, List.isPrefixOf_iff_prefix]
    exact ⟨r.toList, by simp [String.toList, String.data_append]⟩
  rw [replFirst_startsWith _ hs]
  obtain ⟨rd⟩ := r
  show String.mk ((("deleting " : String) ++ ⟨rd⟩).data.drop "deleting ".length) = _
  rw [String.data_append]
  show String.mk ((("deleting " : String).data ++ rd).drop ("deleting " : String).data.length) = _
  rw [List.drop_left]

/-- C4 counterexample: for the localRoot `a//`, which already ends in two
separators, `ensureTrailingSlash` keeps the string unchanged, so the source
path of the built argument vector ends with two trailing separators, not
exactly one as claimed. -/
theorem buildArgs_two_trailing_separators :
    safeSyncArgs "h" ⟨"a//", "r", []⟩ = ["-avzP", "a//", "h:r"] ∧
    trailingSlashCount "a//" = 2 := by decide

/-- C4 amended: the built argument vector is `-avzP`, then exactly `len(P)`
`--exclude` directives each immediately followed by the corresponding pattern
in original order, then `--delete` exactly when mirror mode is selected (with
`--dry-run` additionally for the trial), then the source path, then the
destination `host:remoteRoot`; the source path always ends with a trailing
separator, where the input localRoot is kept unchanged when it already ends
with a separator (several trailing separators are preserved as-is) and exactly
one separator is appended when it ends with none. -/
theorem buildArgs_amended :
    ∀ (host lo re : String) (P : List String),
      safeSyncArgs host ⟨lo, re, P⟩ =
        ["-avzP"] ++ excludeArgs P ++ [ensureTrailingSlash lo, host ++ ":" ++ re] ∧
      fullSyncDryRunArgs host ⟨lo, re, P⟩ =
        ["-avzP"] ++ excludeArgs P ++
          ["--delete", "--dry-run", ensureTrailingSlash lo, host ++ ":" ++ re] ∧
      fullSyncRealArgs host ⟨lo, re, P⟩ =
        ["-avzP"] ++ excludeArgs P ++ ["--delete", ensureTrailingSlash lo, host ++ ":" ++ re] ∧
      excludeArgs P = P.flatMap (fun e => ["--exclude", e]) ∧
      (excludeArgs P).length = 2 * P.length ∧
      endsWithJS (ensureTrailingSlash lo) "/" = true ∧
      ((endsWithJS lo pathSep || endsWithJS lo "/") = true → ensureTrailingSlash lo = lo) ∧
      ((endsWithJS lo pathSep || endsWithJS lo "/") = false →
        ensureTrailingSlash lo = lo ++ "/") := by
  intro host lo re P
  have hflat : ∀ Q : List String, excludeArgs Q = Q.flatMap (fun e => ["--exclude", e]) := by
    intro Q
    induction Q with
    | nil => rfl
    | cons e rest ih => simp [excludeArgs, ih]
  have hlen : ∀ Q : List String, (excludeArgs Q).length = 2 * Q.length := by
    intro Q
    induction Q with
    | nil => rfl
    | cons e rest ih => simp [excludeArgs, ih]; omega
  refine ⟨?_, ?_, ?_, hflat P, hlen P, ?_, ?_, ?_⟩
  · simp [safeSyncArgs, buildRsyncArgs]
  · simp [fullSyncDryRunArgs, buildRsyncArgs]
  · simp [fullSyncRealArgs, buildRsyncArgs]
  · by_cases h : (endsWithJS lo pathSep || endsWithJS lo "/") = true
    · rw [ensureTrailingSlash, if_pos h]
      rw [show pathSep = "/" from rfl, Bool.or_self] at h
      exact h
    · rw [ensureTrailingSlash, if_neg (by simp [h])]
      rw [endsWithJS, List.isSuffixOf_iff_suffix]
      exact ⟨lo.toList, by simp [String.toList, String.data_append]⟩
  · intro h
    rw [ensureTrailingSlash, if_pos h]
  · intro h
    rw [ensureTrailingSlash, if_neg (by simp [h])]

/-- C4 amended witness: for a localRoot with no trailing separator exactly one
is appended. -/
theorem buildArgs_amended_witness :
    ensureTrailingSlash "a" = "a" ++ "/" :=
  (buildArgs_amended "h" "a" "r" []).2.2.2.2.2.2.2 (by decide)

theorem lookupAssoc_updateAssoc (l : List (String × String)) (key value : String) :
    lookupAssoc (updateAssoc l key value) key = some value := by
  induction l with
  | nil => simp [updateAssoc, lookupAssoc]
  | cons p rest ih =>
    obtain ⟨k, v⟩ := p
    by_cases h : k = key
    · simp [updateAssoc, lookupAssoc, h]
    · simp [updateAssoc, lookupAssoc, h, ih]

/-- C10: `SessionState.set` updates the stored server choice and fires the
`onDidChange` event (the returned boolean) exactly when the new value differs
from the value currently stored for that key; calling `set` with the
already-stored value leaves the state unchanged and fires no event; and `get`
afterwards returns the most recently set value. -/
theorem sessionState_set_spec :
    ∀ (s : SessionState) (key value : String),
      ((SessionState.set s key value).2 = true ↔ s.get key ≠ some value) ∧
      (s.get key = some value → SessionState.set s key value = (s, false)) ∧
      (SessionState.set s key value).1.get key = some value := by
  intro s key value
  by_cases h : s.get key = some value
  · refine ⟨by simp [SessionState.set, h], fun _ => by simp [SessionState.set, h], ?_⟩
    simp [SessionState.set, h]
  · refine ⟨by simp [SessionState.set, h], fun hc => absurd hc h, ?_⟩
    have h' : lookupAssoc s.serverChoice key ≠ some value := h
    simp [SessionState.set, SessionState.get, h', lookupAssoc_updateAssoc]

/-- C10 witness: setting the value already stored for a key returns the state
unchanged and does not fire the event. -/
theorem sessionState_set_spec_witness :
    SessionState.set ⟨[("ws", "srv")], []⟩ "ws" "srv" = (⟨[("ws", "srv")], []⟩, false) :=
  (sessionState_set_spec ⟨[("ws", "srv")], []⟩ "ws" "srv").2.1 (by decide)

theorem runFullSyncReal_confirmAsked (cg : Bool) (re : List PEvent) (asked : Bool) :
    (runFullSyncReal cg re asked).confirmAsked = asked := by
  rw [runFullSyncReal]
  split
  · rfl
  · split <;> rfl

theorem runFullSyncReal_realSpawned (cg : Bool) (re : List PEvent) (asked : Bool)
    (h : cg = false) : (runFullSyncReal cg re asked).realSpawned = true := by
  subst h
  rw [runFullSyncReal, if_neg (by decide : ¬ (false = true))]
  split <;> rfl

theorem runFullSyncM_resolved (te : List PEvent) (ca : Option String) (cg : Bool)
    (re : List PEvent) (stdout : String)
    (h : processWithOutput "" "" te = some (.resolved stdout)) :
    runFullSyncM false te ca cg re =
      (if 0 < (parseDeletedFiles stdout).length then
        if ca ≠ some "Yes, delete" then ⟨some .cancelledByUser, true, false, true⟩
        else runFullSyncReal cg re true
      else runFullSyncReal cg re false) := by
  rw [runFullSyncM, if_neg (by decide : ¬ (false = true)), h]

/-- C1: in the mirror-mode flow the real (mutating) run is spawned only if the
dry run resolved and either it reported zero deletions, or the confirmation
dialog was shown for the non-empty deletion list and the user chose the
explicit affirmative `Yes, delete`. -/
theorem runFullSync_delete_gate :
    ∀ (cs : Bool) (te : List PEvent) (ca : Option String) (cg : Bool) (re : List PEvent),
      (runFullSyncM cs te ca cg re).realSpawned = true →
      ∃ stdout, processWithOutput "" "" te = some (.resolved stdout) ∧
        (parseDeletedFiles stdout = [] ∨
         (parseDeletedFiles stdout ≠ [] ∧ ca = some "Yes, delete" ∧
          (runFullSyncM cs te ca cg re).confirmAsked = true)) := by
  intro cs te ca cg re h
  by_cases hcs : cs = true
  · rw [runFullSyncM, if_pos hcs] at h
    exact absurd (show false = true from h) (by decide)
  · have hcs0 : cs = false := by simpa using hcs
    subst hcs0
    rcases hpo : processWithOutput "" "" te with _ | pr
    · rw [runFullSyncM, if_neg (by decide : ¬ (false = true)), hpo] at h
      exact absurd (show false = true from h) (by decide)
    rcases pr with stdout | msg
    · refine ⟨stdout, rfl, ?_⟩
      by_cases hempty : parseDeletedFiles stdout = []
      · exact Or.inl hempty
      · have hpos : 0 < (parseDeletedFiles stdout).length := List.length_pos.mpr hempty
        by_cases hca : ca = some "Yes, delete"
        · refine Or.inr ⟨hempty, hca, ?_⟩
          rw [runFullSyncM_resolved te ca cg re stdout hpo, if_pos hpos,
            if_neg (fun hne => hne hca)]
          exact runFullSyncReal_confirmAsked cg re true
        · rw [runFullSyncM_resolved te ca cg re stdout hpo, if_pos hpos, if_pos hca] at h
          exact absurd (show false = true from h) (by decide)
    · rw [runFullSyncM, if_neg (by decide : ¬ (false = true)), hpo] at h
      exact absurd (show false = true from h) (by decide)

/-- C1 witness: a full sync whose dry run exits 0 with empty output spawns the
real run, and the gate condition holds with the empty deletion list. -/
theorem runFullSync_delete_gate_witness :
    ∃ stdout, processWithOutput "" "" [PEvent.close (some 0)] = some (.resolved stdout) ∧
      (parseDeletedFiles stdout = [] ∨
       (parseDeletedFiles stdout ≠ [] ∧ (none : Option String) = some "Yes, delete" ∧
        (runFullSyncM false [PEvent.close (some 0)] none false
          [PEvent.close (some 0)]).confirmAsked = true)) :=
  runFullSync_delete_gate false [PEvent.close (some 0)] none false
    [PEvent.close (some 0)] (by decide)

/-- C5: if the dry run of the mirror flow fails (its promise rejects, covering
both a non-zero exit code and a spawn failure), the real run is never spawned
and the rejection is rethrown unchanged as the overall outcome, with no
retry. -/
theorem runFullSync_trial_failure :
    ∀ (te : List PEvent) (ca : Option String) (cg : Bool) (re : List PEvent) (msg : String),
      processWithOutput "" "" te = some (.rejected msg) →
      runFullSyncM false te ca cg re = ⟨some (.threw msg), true, false, false⟩ := by
  intro te ca cg re msg h
  rw [runFullSyncM, if_neg (by decide : ¬ (false = true)), h]

/-- C5 witness: a dry run exiting with code 23 (empty stderr) makes the whole
invocation throw `rsync exited with code 23` with the real run never spawned. -/
theorem runFullSync_trial_failure_witness :
    runFullSyncM false [PEvent.close (some 23)] none false [] =
      ⟨some (.threw "rsync exited with code 23"), true, false, false⟩ :=
  runFullSync_trial_failure [PEvent.close (some 23)] none false []
    "rsync exited with code 23" (by decide)

/-- C3: in the mirror flow, when the dry run resolves, a non-empty deletion
list with any confirmation answer other than the explicit affirmative ends in
the user-cancelled outcome with the real run never spawned; and an empty
deletion list never shows the confirmation dialog and (absent a cancellation
request at the second token check) proceeds directly to the real run. -/
theorem runFullSync_gate_behaviour :
    ∀ (te : List PEvent) (ca : Option String) (cg : Bool) (re : List PEvent) (stdout : String),
      processWithOutput "" "" te = some (.resolved stdout) →
      ((parseDeletedFiles stdout ≠ [] → ca ≠ some "Yes, delete" →
         runFullSyncM false te ca cg re = ⟨some .cancelledByUser, true, false, true⟩) ∧
       (parseDeletedFiles stdout = [] →
         (runFullSyncM false te ca cg re).confirmAsked = false ∧
         (cg = false → (runFullSyncM false te ca cg re).realSpawned = true))) := by
  intro te ca cg re stdout h
  constructor
  · intro hne hca
    have hpos : 0 < (parseDeletedFiles stdout).length := List.length_pos.mpr hne
    rw [runFullSyncM_resolved te ca cg re stdout h, if_pos hpos, if_pos hca]
  · intro hempty
    have hnot : ¬ 0 < (parseDeletedFiles stdout).length := by simp [hempty]
    rw [runFullSyncM_resolved te ca cg re stdout h, if_neg hnot]
    exact ⟨runFullSyncReal_confirmAsked cg re false,
      fun hcg => runFullSyncReal_realSpawned cg re false hcg⟩

/-- C3 witness: a dry run reporting one deletion with a dismissed dialog ends
user-cancelled with no real spawn. -/
theorem runFullSync_gate_behaviour_witness :
    runFullSyncM false [PEvent.out "deleting x", PEvent.close (some 0)] none false [] =
      ⟨some .cancelledByUser, true, false, true⟩ :=
  (runFullSync_gate_behaviour [PEvent.out "deleting x", PEvent.close (some 0)] none false []
    "deleting x" (by decide)).1 (by decide) (by decide)

/-- C6 counterexample: in the live streaming runner, a cancellation followed
by the killed process closing with code `null` settles as the exit-code
failure `Full sync failed with code null`, not as a cancelled outcome (the
capture-only runner would reject with `Operation cancelled`); the later
exit-code outcome is exactly what the execution reports. -/
theorem streaming_cancel_not_cancelled :
    processStreaming "Full sync" [.cancel, .close none] =
      some (.rejected "Full sync failed with code null") ∧
    ("Full sync failed with code null" : String) ≠ "Operation cancelled" := by decide

/-- C6 amended: if the cancellation signal fires while the process is alive,
the process is killed in both runners, but only the capture-only runner's
outcome is the cancelled rejection `Operation cancelled`, superseding any
later exit-code outcome; the live streaming runner's cancellation handler does
not settle the promise, so its outcome is whatever the subsequent close event
yields (success on exit code 0, otherwise the exit-code failure). -/
theorem cancel_behaviour_amended :
    (∀ (so se : String) (rest : List PEvent),
      processWithOutput so se (.cancel :: rest) = some (.rejected "Operation cancelled")) ∧
    (∀ (op : String) (rest : List PEvent),
      processStreaming op (.cancel :: rest) = processStreaming op rest) ∧
    (∀ (op : String) (code : Option Int) (rest : List PEvent),
      processStreaming op (.cancel :: .close code :: rest) =
        (if code = some 0 then some .resolved
         else some (.rejected (op ++ " failed with code " ++ codeStr code)))) :=
  ⟨fun _ _ _ => rfl, fun _ _ => rfl, fun _ _ _ => rfl⟩

/-- C7 counterexample: the live streaming runner ignores the accumulated
stderr text on a non-zero exit (it streams stderr instead of accumulating it)
and always synthesizes `<operation> failed with code N`; and the capture-only
runner's synthesized message for empty stderr is `rsync exited with code N`,
not `<operation> failed with code N`. -/
theorem exit_code_detail_counterexample :
    processStreaming "Full sync" [.err "boom", .close (some 1)] =
      some (.rejected "Full sync failed with code 1") ∧
    ("Full sync failed with code 1" : String) ≠ "boom" ∧
    processWithOutput "" "" [.close (some 2)] = some (.rejected "rsync exited with code 2") ∧
    ("rsync exited with code 2" : String) ≠ "Full sync failed with code 2" := by decide

/-- C7 amended: for any run of data events followed by the close event, exit
code 0 yields the success outcome in both runners; a non-zero exit code yields
in the capture-only runner a failure whose detail is the accumulated stderr
text, or the synthesized `rsync exited with code N` when that text is empty,
and in the live streaming runner always the synthesized
`<operation> failed with code N`, regardless of stderr. -/
theorem exit_code_contract_amended :
    ∀ (pre : List PEvent) (code : Option Int) (op : String),
      (∀ e ∈ pre, isData e = true) →
      processWithOutput "" "" (pre ++ [.close code]) =
        (if code = some 0 then some (.resolved (outsOf pre))
         else some (.rejected (if errsOf pre ≠ "" then errsOf pre
                               else "rsync exited with code " ++ codeStr code))) ∧
      processStreaming op (pre ++ [.close code]) =
        (if code = some 0 then some .resolved
         else some (.rejected (op ++ " failed with code " ++ codeStr code))) := by
  intro pre code op hdata
  constructor
  · have key : ∀ (p : List PEvent), (∀ e ∈ p, isData e = true) → ∀ (so se : String),
        processWithOutput so se (p ++ [.close code]) =
          (if code = some 0 then some (.resolved (so ++ outsOf p))
           else some (.rejected (if se ++ errsOf p ≠ "" then se ++ errsOf p
                                 else "rsync exited with code " ++ codeStr code))) := by
      intro p hp
      induction p with
      | nil =>
        intro so se
        simp only [List.nil_append, outsOf, errsOf, String.append_empty]
        rfl
      | cons e p' ih =>
        intro so se
        have he : isData e = true := hp e (by simp)
        have hp' : ∀ e ∈ p', isData e = true := fun x hx => hp x (by simp [hx])
        cases e with
        | cancel => simp [isData] at he
        | close c => simp [isData] at he
        | spawnErr m => simp [isData] at he
        | out s =>
          show processWithOutput (so ++ s) se (p' ++ [.close code]) = _
          rw [ih hp' (so ++ s) se]
          simp only [outsOf, errsOf, String.append_assoc]
        | err s =>
          show processWithOutput so (se ++ s) (p' ++ [.close code]) = _
          rw [ih hp' so (se ++ s)]
          simp only [outsOf, errsOf, String.append_assoc]
    have := key pre hdata "" ""
    rwa [String.empty_append, String.empty_append] at this
  · induction pre with
    | nil => rfl
    | cons e pre' ih =>
      have he : isData e = true := hdata e (by simp)
      have hp' : ∀ x ∈ pre', isData x = true := fun x hx => hdata x (by simp [hx])
      cases e with
      | cancel => simp [isData] at he
      | close c => simp [isData] at he
      | spawnErr m => simp [isData] at he
      | out s => exact ih hp'
      | err s => exact ih hp'

/-- C7 amended witness: one stderr chunk then exit code 1 in the streaming
runner yields the synthesized failure message. -/
theorem exit_code_contract_amended_witness :
    processStreaming "Full sync" ([.err "boom"] ++ [.close (some 1)]) =
      (if (some 1 : Option Int) = some 0 then some VoidResult.resolved
       else some (.rejected ("Full sync" ++ " failed with code " ++ codeStr (some 1)))) :=
  (exit_code_contract_amended [.err "boom"] (some 1) "Full sync" (by decide)).2

end WWSync
